import Mathlib

/-!
Shallow embedding of `completion_engine.py` (Ollama-Copilot): a completion
payload builder for cursor-local autocomplete.  Python strings are embedded
as `List Char` (one element per code point, matching Python's character
indexing), documents as lists of line strings, and Python `dict`s as
association lists.  Machine-level concerns (network transport, the debug
log sink, the actual Ollama client) are outside the embedded core, exactly
as in the source where they are external collaborators.
-/

/-- A Python string, embedded as its list of characters. -/
abbrev Str := List Char

/-- A Python value as it appears in the engine's options dict. -/
inductive PyVal where
  | str (s : Str)
  | int (n : Int)
  | bool (b : Bool)
  | none
deriving DecidableEq, Repr

/-- A Python dict with string keys, embedded as an association list. -/
abbrev PyDict := List (Str × PyVal)

/-- Python truthiness for the embedded values (`bool(v)`). -/
def pyTruthy : PyVal → Bool
  | PyVal.str s => !s.isEmpty
  | PyVal.int n => n != 0
  | PyVal.bool b => b
  | PyVal.none => false

/-- `int(v)` for the configuration integers.  The source applies Python
`int(...)` to the popped option; configuration sizes are modelled as
naturals (the spec's defaults and all reachable configurations are
non-negative). -/
def pyToNat : PyVal → Nat
  | PyVal.int n => n.toNat
  | PyVal.bool b => if b then 1 else 0
  | _ => 0

/-- `d.pop(k)`'s removal effect: drop every binding of key `k`. -/
def eraseKey (k : Str) (d : PyDict) : PyDict :=
  d.filter (fun kv => !(kv.1 == k))

/-- `d.pop(k, default)`: the extracted value together with the remaining dict. -/
def popOr (d : PyDict) (k : Str) (default : PyVal) : PyVal × PyDict :=
  match d.lookup k with
  | Option.some v => (v, eraseKey k d)
  | Option.none => (default, d)

/-- Python slice `s[-m:]`.  Note Python's `-0 == 0`, so `m = 0` yields the
whole string, not the empty string. -/
def pyTakeRight (s : Str) (m : Nat) : Str :=
  if m = 0 then s else s.drop (s.length - m)

/-- Python `"\n".join(lines)`. -/
def joinLines : List Str → Str
  | [] => []
  | [x] => x
  | x :: xs => x ++ '\n' :: joinLines xs

/-- One escaped character of `json.dumps` applied to a string (the engine
only ever serializes indentation, i.e. spaces and tabs). -/
def jsonEscapeChar (c : Char) : Str :=
  if c = '"' then ['\\', '"']
  else if c = '\\' then ['\\', '\\']
  else if c = '\t' then ['\\', 't']
  else if c = '\n' then ['\\', 'n']
  else if c = '\r' then ['\\', 'r']
  else [c]

/-- `json.dumps(s)` for a string `s`: quoted, with characters escaped. -/
def jsonDumpsStr (s : Str) : Str :=
  '"' :: s.flatMap jsonEscapeChar ++ ['"']

/-- The exception kinds distinguished by `complete`'s `except TypeError`
handler: a `TypeError` (with its `str(exc)` message) versus any other
backend error. -/
inductive PyErr where
  | typeError (msg : Str)
  | other (msg : Str)
deriving DecidableEq, Repr

/-- `pat` occurs in `s` starting at index `i` (all positions, overlapping
occurrences included). -/
def matchesAt (s pat : Str) (i : Nat) : Prop :=
  (s.drop i).take pat.length = pat

instance (s pat : Str) (i : Nat) : Decidable (matchesAt s pat i) :=
  inferInstanceAs (Decidable ((s.drop i).take pat.length = pat))

/-- The number of occurrences of `pat` in `s` (counting every start
position, overlaps included). -/
def countOcc (s pat : Str) : Nat :=
  (List.range (s.length + 1)).countP (fun i => decide (matchesAt s pat i))

/-- Python's substring test `pat in s`. -/
def containsSub (s pat : Str) : Bool :=
  (List.range (s.length + 1)).any (fun i => decide (matchesAt s pat i))

/-- The engine state established by `CompletionEngine.__init__`: the
recognized configuration fields plus the residual pass-through options. -/
structure Engine where
  model : Str
  options : PyDict
  fim_enabled : PyVal
  fim_mode : PyVal
  context_lines_before : Nat
  context_lines_after : Nat
  max_prefix_chars : Nat
  max_suffix_chars : Nat
  debug : Bool
  debug_log_file : PyVal
deriving DecidableEq, Repr

/-- `CompletionEngine.__init__`: pops the recognized keys out of the
options dict (leaving the remainder as pass-through generation options)
and records the configuration.  `envDebug`/`envLog` model the
`OLLAMA_COPILOT_DEBUG` / `OLLAMA_COPILOT_DEBUG_LOG` environment lookups. -/
def engineInit (model : Str) (options : PyDict)
    (envDebug : Bool) (envLog : Option Str) : Engine :=
  let p1 := popOr options "fim_enabled".toList (PyVal.bool true)
  let p2 := popOr p1.2 "fim_mode".toList (PyVal.str "auto".toList)
  let p3 := popOr p2.2 "context_lines_before".toList (PyVal.int 80)
  let p4 := popOr p3.2 "context_lines_after".toList (PyVal.int 40)
  let p5 := popOr p4.2 "max_prefix_chars".toList (PyVal.int 8000)
  let p6 := popOr p5.2 "max_suffix_chars".toList (PyVal.int 3000)
  let p7 := popOr p6.2 "debug".toList (PyVal.bool false)
  let p8 := popOr p7.2 "debug_log_file".toList PyVal.none
  { model := model
    options := p8.2
    fim_enabled := p1.1
    fim_mode := p2.1
    context_lines_before := pyToNat p3.1
    context_lines_after := pyToNat p4.1
    max_prefix_chars := pyToNat p5.1
    max_suffix_chars := pyToNat p6.1
    debug := pyTruthy p7.1 || envDebug
    debug_log_file :=
      if pyTruthy p8.1 then p8.1
      else PyVal.str (envLog.getD "/tmp/ollama-copilot-debug.log".toList) }

/-- `bounded_line` in `_split_prefix_suffix`:
`max(0, min(line, len(lines) - 1)) if lines else 0`. -/
def boundedLineOf (lines : List Str) (line : Int) : Nat :=
  if lines.isEmpty then 0
  else (max 0 (min line ((lines.length : Int) - 1))).toNat

/-- `current_line` in `_split_prefix_suffix`: `lines[bounded_line] if lines else ""`. -/
def currentLineOf (lines : List Str) (line : Int) : Str :=
  lines.getD (boundedLineOf lines line) []

/-- `bounded_character` in `_split_prefix_suffix`:
`max(0, min(character, len(current_line)))`. -/
def boundedCharOf (lines : List Str) (line character : Int) : Nat :=
  (max 0 (min character ((currentLineOf lines line).length : Int))).toNat

/-- `_split_prefix_suffix`: full-document prefix and suffix split at the
(clamped) cursor, plus the local indent of the text left of the cursor. -/
def split_prefix_suffix (lines : List Str) (line character : Int) :
    Str × Str × Str :=
  let bounded_line := boundedLineOf lines line
  let current_line := currentLineOf lines line
  let bounded_character := boundedCharOf lines line character
  let left := current_line.take bounded_character
  let right := current_line.drop bounded_character
  let indent := left.take (left.length - (left.dropWhile (fun c => c == ' ' || c == '\t')).length)
  let pfx0 := joinLines (lines.take bounded_line)
  let pfx := if pfx0.isEmpty then left else pfx0 ++ '\n' :: left
  let sfx :=
    if bounded_line + 1 < lines.length then
      right ++ '\n' :: joinLines (lines.drop (bounded_line + 1))
    else right
  (pfx, sfx, indent)

/-- The `if not lines: lines = [""]` replacement at the head of
`_centered_prefix`. -/
def linesOrBlank (lines : List Str) : List Str :=
  if lines.isEmpty then [[]] else lines

/-- `bounded_line` as `_centered_prefix` re-clamps it (over the
empty-document-replaced list). -/
def centeredBoundedLine (lines : List Str) (line : Int) : Nat :=
  (max 0 (min line (((linesOrBlank lines).length : Int) - 1))).toNat

/-- The `before_lines` slice of `_centered_prefix`:
`lines[max(0, bounded_line - context_lines_before):bounded_line]` over the
empty-document-replaced list. -/
def centeredBeforeLines (e : Engine) (lines : List Str) (line : Int) : List Str :=
  ((linesOrBlank lines).take (centeredBoundedLine lines line)).drop
    (centeredBoundedLine lines line - e.context_lines_before)

/-- `_centered_prefix`: the cursor-local instruction block used when FIM is
disabled. -/
def centered_prefix_block (e : Engine) (lines : List Str) (line character : Int)
    (filetype : Str) (indent : Str) : Str :=
  let lines' := linesOrBlank lines
  let bounded_line := centeredBoundedLine lines line
  let current_line := lines'.getD bounded_line []
  let bounded_character := (max 0 (min character (current_line.length : Int))).toNat
  let before_lines := centeredBeforeLines e lines line
  let line_pfx := current_line.take bounded_character
  let line_sfx := current_line.drop bounded_character
  let before_text0 := joinLines before_lines
  let before_text :=
    if before_text0.length > e.max_prefix_chars then
      pyTakeRight before_text0 e.max_prefix_chars
    else before_text0
  "[AUTOCOMPLETE_TASK]\n".toList ++
    "Return ONLY the exact text to insert at <CURSOR>.\n".toList ++
    "Do not restate existing text. Do not explain. Do not use markdown fences.\n".toList ++
    "filetype=".toList ++ (if filetype.isEmpty then "plain".toList else filetype) ++
    "\n".toList ++
    "indentation=".toList ++ jsonDumpsStr indent ++ "\n".toList ++
    "[PREFIX_BEFORE_CURSOR]\n".toList ++ before_text ++ "\n".toList ++
    "[CURRENT_LINE_PREFIX]\n".toList ++ line_pfx ++ "\n".toList ++
    "[CURRENT_LINE_SUFFIX]\n".toList ++ line_sfx ++ "\n".toList ++
    "[INSERT_AT_CURSOR]\n".toList

/-- The `<|fim_prefix|>` sentinel token. -/
def fimPrefixTok : Str := "<|fim_prefix|>".toList

/-- The `<|fim_suffix|>` sentinel token. -/
def fimSuffixTok : Str := "<|fim_suffix|>".toList

/-- The `<|fim_middle|>` sentinel token. -/
def fimMiddleTok : Str := "<|fim_middle|>".toList

/-- `_manual_fim_prompt`: sentinel-token FIM encoding; bounds the suffix to
its first `max_suffix_chars` characters. -/
def manual_fim_prompt (e : Engine) (pfx sfx : Str) : Str :=
  fimPrefixTok ++ pfx ++ fimSuffixTok ++ sfx.take e.max_suffix_chars ++ fimMiddleTok

/-- The Ollama `generate` request payload built by the engine. -/
structure Payload where
  model : Str
  stream : Bool
  options : PyDict
  prompt : Str
  suffix : Option Str
deriving DecidableEq, Repr

/-- The `use_template_fim` condition of `build_request_payload`:
`self.fim_enabled and not force_manual_fim and self.fim_mode in ("auto", "template")`. -/
def use_template_fim (e : Engine) (force_manual_fim : Bool) : Bool :=
  pyTruthy e.fim_enabled && !force_manual_fim &&
    (e.fim_mode == PyVal.str "auto".toList || e.fim_mode == PyVal.str "template".toList)

/-- `build_request_payload`: the three payload strategies (native template
FIM, manual sentinel FIM, plain windowed prompt). -/
def build_request_payload (e : Engine) (lines : List Str) (line character : Int)
    (filetype : Str) (force_manual_fim : Bool) : Payload :=
  let ps := split_prefix_suffix lines line character
  let pfx := ps.1
  let sfx := ps.2.1
  let local_indent := ps.2.2
  let centered := centered_prefix_block e lines line character filetype local_indent
  if use_template_fim e force_manual_fim then
    { model := e.model, stream := true, options := e.options
      prompt := pyTakeRight pfx e.max_prefix_chars
      suffix := Option.some (sfx.take e.max_suffix_chars) }
  else if pyTruthy e.fim_enabled then
    { model := e.model, stream := true, options := e.options
      prompt := manual_fim_prompt e (pyTakeRight pfx e.max_prefix_chars) sfx
      suffix := Option.none }
  else
    { model := e.model, stream := true, options := e.options
      prompt := centered ++ ['\n']
      suffix := Option.none }

/-- `complete`: builds the payload, submits it via `gen` (the backend's
`generate`), and on a `TypeError` whose message mentions `suffix` rebuilds
once with `force_manual_fim=True`; every other error, and any error of the
resubmission, propagates. -/
def complete {σ : Type} (e : Engine) (gen : Payload → Except PyErr σ)
    (lines : List Str) (line character : Int) (filetype : Str) :
    Except PyErr σ :=
  let payload := build_request_payload e lines line character filetype false
  match gen payload with
  | Except.ok s => Except.ok s
  | Except.error exc =>
    match exc with
    | PyErr.typeError msg =>
      if containsSub msg "suffix".toList then
        gen (build_request_payload e lines line character filetype true)
      else Except.error (PyErr.typeError msg)
    | PyErr.other m => Except.error (PyErr.other m)

/-- The heterogeneous chunk shapes `_normalize_chunk` distinguishes: an
actual dict, an object exposing `model_dump()`, an object exposing
`.dict()` (each carrying the mapping the conversion yields), or any other
value together with its `str(...)` rendering. -/
inductive Chunk where
  | dict (m : PyDict)
  | modelDump (m : PyDict)
  | dictMethod (m : PyDict)
  | other (text : Str)
deriving DecidableEq, Repr

/-- `_normalize_chunk`: dicts pass through; convertible objects are
converted; anything else is wrapped as `{"response": str(chunk)}`. -/
def normalize_chunk : Chunk → PyDict
  | Chunk.dict m => m
  | Chunk.modelDump m => m
  | Chunk.dictMethod m => m
  | Chunk.other s => [("response".toList, PyVal.str s)]

/-- The configuration keys `__init__` extracts (and removes) from the
options dict. -/
def recognizedKeys : List Str :=
  ["fim_enabled".toList, "fim_mode".toList, "context_lines_before".toList,
    "context_lines_after".toList, "max_prefix_chars".toList,
    "max_suffix_chars".toList, "debug".toList, "debug_log_file".toList]

/-- A concrete engine with native template FIM enabled (the library
defaults), used to exercise the payload builder on concrete inputs. -/
def engAuto : Engine :=
  { model := "qwen2.5-coder:3b".toList, options := []
    fim_enabled := PyVal.bool true, fim_mode := PyVal.str "auto".toList
    context_lines_before := 80, context_lines_after := 40
    max_prefix_chars := 8000, max_suffix_chars := 3000
    debug := false, debug_log_file := PyVal.none }

/-- A concrete engine configured for manual sentinel FIM. -/
def engManual : Engine :=
  { engAuto with fim_mode := PyVal.str "manual".toList }

/-- A concrete engine with FIM disabled (plain windowed prompts). -/
def engNoFim : Engine :=
  { engAuto with fim_enabled := PyVal.bool false }

/-- A concrete engine whose `max_prefix_chars` is zero, exercising
Python's `s[-0:]` slice behaviour. -/
def engZeroMax : Engine :=
  { engAuto with max_prefix_chars := 0 }

/-- A simulated backend whose first-generation path rejects the native
two-field payload with a `TypeError` naming the `suffix` keyword, and
accepts single-field payloads. -/
def genSuffixError (p : Payload) : Except PyErr Nat :=
  if p.suffix.isSome then
    Except.error (PyErr.typeError "generate() got an unexpected keyword argument: suffix".toList)
  else Except.ok 7

/-- A simulated backend that always fails with a `TypeError` unrelated to
the suffix field. -/
def genOtherTypeError (_p : Payload) : Except PyErr Nat :=
  Except.error (PyErr.typeError "generate() got an unexpected keyword argument: raw".toList)

/-! ### Occurrence-counting infrastructure -/

theorem matchesAt_le_length {s pat : Str} {i : Nat} (h : matchesAt s pat i)
    (hpat : pat ≠ []) : i + pat.length ≤ s.length := by
  have hl := congrArg List.length h
  simp [List.length_take, List.length_drop] at hl
  have : 0 < pat.length := List.length_pos.mpr hpat
  omega

theorem matchesAt_head {s pat : Str} {i : Nat} (h : matchesAt s pat i)
    (hpat : pat ≠ []) : s[i]? = pat[0]? := by
  have h0 : 0 < pat.length := List.length_pos.mpr hpat
  have h1 : pat[0]? = ((s.drop i).take pat.length)[0]? := by rw [h]
  simp [List.getElem?_take, h0, List.getElem?_drop] at h1
  simp [List.getElem?_eq_getElem h0]
  exact h1.symm

theorem matchesAt_append_right {x y pat : Str} {j : Nat} :
    matchesAt (x ++ y) pat (x.length + j) ↔ matchesAt y pat j := by
  unfold matchesAt
  rw [List.drop_append]

theorem matchesAt_append_left {x y pat : Str} {i : Nat}
    (h : i + pat.length ≤ x.length) :
    matchesAt (x ++ y) pat i ↔ matchesAt x pat i := by
  unfold matchesAt
  rw [List.drop_append_of_le_length (by omega), List.take_append_of_le_length]
  simp
  omega

theorem matchesAt_boundary {x y pat : Str} {i : Nat}
    (h : matchesAt (x ++ y) pat i) (h1 : i < x.length)
    (h2 : x.length < i + pat.length) : y[0]? = pat[x.length - i]? := by
  have hj : x.length - i < pat.length := by omega
  have h4 : pat[x.length - i]? = (((x ++ y).drop i).take pat.length)[x.length - i]? := by
    rw [h]
  simp [List.getElem?_take, hj, List.getElem?_drop] at h4
  have hi : i + (x.length - i) = x.length := by omega
  rw [hi] at h4
  rw [List.getElem?_append_right (by omega)] at h4
  simp at h4
  rw [List.getElem?_eq_getElem hj]
  exact h4.symm

theorem matchesAt_self_append (pat r : Str) : matchesAt (pat ++ r) pat 0 := by
  unfold matchesAt
  simp [List.take_append_of_le_length]

theorem matchesAt_take {s pat : Str} {m q : Nat}
    (h : matchesAt (s.take m) pat q) (hpat : pat ≠ []) : matchesAt s pat q := by
  unfold matchesAt at h ⊢
  rw [List.drop_take, List.take_take] at h
  have hl := congrArg List.length h
  have h0 : 0 < pat.length := List.length_pos.mpr hpat
  simp [List.length_take, List.length_drop] at hl
  have : min pat.length (m - q) = pat.length := by omega
  rwa [this] at h

theorem matchesAt_drop {s pat : Str} {k q : Nat}
    (h : matchesAt (s.drop k) pat q) : matchesAt s pat (k + q) := by
  unfold matchesAt at h ⊢
  rwa [List.drop_drop] at h

theorem countOcc_eq_zero_iff {s pat : Str} :
    countOcc s pat = 0 ↔ ∀ i, ¬ matchesAt s pat i := by
  unfold countOcc
  rw [List.countP_eq_zero]
  constructor
  · intro h i hm
    by_cases hi : i ≤ s.length
    · exact h i (List.mem_range.mpr (by omega)) (by simpa using hm)
    · have : s.drop i = [] := List.drop_eq_nil_of_le (by omega)
      unfold matchesAt at hm
      rw [this] at hm
      simp at hm
      have : matchesAt s pat 0 := by
        unfold matchesAt
        simp [hm]
      exact h 0 (List.mem_range.mpr (by omega)) (by simpa using this)
  · intro h i _ hd
    exact h i (by simpa using hd)

theorem countOcc_eq_one {s pat : Str} {pos : Nat}
    (hm : matchesAt s pat pos) (hpat : pat ≠ [])
    (huniq : ∀ i, matchesAt s pat i → i = pos) : countOcc s pat = 1 := by
  have hpos : pos ≤ s.length := by
    have := matchesAt_le_length hm hpat
    omega
  unfold countOcc
  have hcong : ∀ i ∈ List.range (s.length + 1),
      decide (matchesAt s pat i) = true ↔ (i == pos) = true := by
    intro i _
    by_cases hi : matchesAt s pat i
    · have hip := huniq i hi
      subst hip
      simp [hi]
    · simp [hi]
      intro he
      exact absurd (he ▸ hm) hi
  rw [List.countP_congr hcong]
  have : (List.range (s.length + 1)).countP (fun i => i == pos)
      = (List.range (s.length + 1)).count pos := by
    simp [List.count]
  rw [this]
  exact List.count_eq_one_of_mem (List.nodup_range _) (List.mem_range.mpr (by omega))

theorem matchesAt_fim_prompt {a b pat : Str}
    (hpat : pat = fimPrefixTok ∨ pat = fimSuffixTok ∨ pat = fimMiddleTok)
    (ha : ∀ q, ¬ matchesAt a pat q) (hb : ∀ q, ¬ matchesAt b pat q)
    {i : Nat}
    (hm : matchesAt (fimPrefixTok ++ a ++ fimSuffixTok ++ b ++ fimMiddleTok) pat i) :
    (pat = fimPrefixTok ∧ i = 0) ∨ (pat = fimSuffixTok ∧ i = 14 + a.length) ∨
      (pat = fimMiddleTok ∧ i = 28 + a.length + b.length) := by
  have l1 : fimPrefixTok.length = 14 := by decide
  have l2 : fimSuffixTok.length = 14 := by decide
  have l3 : fimMiddleTok.length = 14 := by decide
  have hlen : pat.length = 14 := by
    rcases hpat with h | h | h <;> subst h <;> decide
  have hne : pat ≠ [] := by
    intro h
    rw [h] at hlen
    simp at hlen
  have hno : ∀ j, j < 14 → 0 < j → pat[j]? ≠ some '<' := by
    rcases hpat with h | h | h <;> subst h <;> decide
  have hhead : pat[0]? = some '<' := by
    rcases hpat with h | h | h <;> subst h <;> decide
  have hile : i + 14 ≤ 42 + a.length + b.length := by
    have h' := matchesAt_le_length hm hne
    simp [hlen, l1, l2, l3] at h'
    omega
  have hassoc : fimPrefixTok ++ a ++ fimSuffixTok ++ b ++ fimMiddleTok
      = fimPrefixTok ++ (a ++ (fimSuffixTok ++ (b ++ fimMiddleTok))) := by
    simp [List.append_assoc]
  rw [hassoc] at hm
  by_cases hi0 : i = 0
  · subst hi0
    have hwin : (fimPrefixTok ++ (a ++ (fimSuffixTok ++ (b ++ fimMiddleTok)))).take
        pat.length = pat := by
      have h' := hm
      unfold matchesAt at h'
      simpa using h'
    rw [hlen, List.take_left' l1] at hwin
    exact Or.inl ⟨hwin.symm, rfl⟩
  by_cases hi14 : i < 14
  · exfalso
    have hh := matchesAt_head hm hne
    rw [hhead, List.getElem?_append_left (by rw [l1]; omega)] at hh
    have hnop : ∀ j, j < 14 → 0 < j → fimPrefixTok[j]? ≠ some '<' := by decide
    exact hnop i hi14 (by omega) hh
  -- i >= 14 : move past the opening token
  have hq : i = fimPrefixTok.length + (i - 14) := by rw [l1]; omega
  rw [hq] at hm
  have hm2 := matchesAt_append_right.mp hm
  set q := i - 14 with hqdef
  by_cases hqa : q + 14 ≤ a.length
  · exact absurd ((matchesAt_append_left (by rw [hlen]; omega)).mp hm2) (ha q)
  by_cases hqlt : q < a.length
  · exfalso
    have hbd := matchesAt_boundary hm2 hqlt (by rw [hlen]; omega)
    rw [List.getElem?_append_left (by rw [l2]; omega)] at hbd
    have h0' : fimSuffixTok[0]? = some '<' := by decide
    rw [h0'] at hbd
    exact hno (a.length - q) (by omega) (by omega) hbd.symm
  -- q >= a.length : move past the stored prefix
  have hq2 : q = a.length + (q - a.length) := by omega
  rw [hq2] at hm2
  have hm3 := matchesAt_append_right.mp hm2
  set r := q - a.length with hrdef
  by_cases hr0 : r = 0
  · rw [hr0] at hm3
    have hwin : (fimSuffixTok ++ (b ++ fimMiddleTok)).take pat.length = pat := by
      have h' := hm3
      unfold matchesAt at h'
      simpa using h'
    rw [hlen, List.take_left' l2] at hwin
    refine Or.inr (Or.inl ⟨hwin.symm, ?_⟩)
    omega
  by_cases hr14 : r < 14
  · exfalso
    have hh := matchesAt_head hm3 hne
    rw [hhead, List.getElem?_append_left (by rw [l2]; omega)] at hh
    have hnos : ∀ j, j < 14 → 0 < j → fimSuffixTok[j]? ≠ some '<' := by decide
    exact hnos r hr14 (by omega) hh
  -- r >= 14 : move past the suffix token
  have hq3 : r = fimSuffixTok.length + (r - 14) := by rw [l2]; omega
  rw [hq3] at hm3
  have hm4 := matchesAt_append_right.mp hm3
  set u := r - 14 with hudef
  by_cases hub : u + 14 ≤ b.length
  · exact absurd ((matchesAt_append_left (by rw [hlen]; omega)).mp hm4) (hb u)
  by_cases hult : u < b.length
  · exfalso
    have hbd := matchesAt_boundary hm4 hult (by rw [hlen]; omega)
    have h0' : fimMiddleTok[0]? = some '<' := by decide
    rw [h0'] at hbd
    exact hno (b.length - u) (by omega) (by omega) hbd.symm
  -- u >= b.length : only the final token start remains
  have huB : u = b.length := by omega
  have hm4' : matchesAt (b ++ fimMiddleTok) pat (b.length + 0) := by
    rw [huB] at hm4
    simpa using hm4
  have hm5 := matchesAt_append_right.mp hm4'
  have hwin : fimMiddleTok.take pat.length = pat := by
    have h' := hm5
    unfold matchesAt at h'
    simpa using h'
  rw [hlen, List.take_of_length_le (by rw [l3])] at hwin
  refine Or.inr (Or.inr ⟨hwin.symm, ?_⟩)
  omega

theorem fim_prompt_tokens_once (a b : Str)
    (ha1 : countOcc a fimPrefixTok = 0) (ha2 : countOcc a fimSuffixTok = 0)
    (ha3 : countOcc a fimMiddleTok = 0)
    (hb1 : countOcc b fimPrefixTok = 0) (hb2 : countOcc b fimSuffixTok = 0)
    (hb3 : countOcc b fimMiddleTok = 0) :
    countOcc (fimPrefixTok ++ a ++ fimSuffixTok ++ b ++ fimMiddleTok) fimPrefixTok = 1 ∧
    countOcc (fimPrefixTok ++ a ++ fimSuffixTok ++ b ++ fimMiddleTok) fimSuffixTok = 1 ∧
    countOcc (fimPrefixTok ++ a ++ fimSuffixTok ++ b ++ fimMiddleTok) fimMiddleTok = 1 ∧
    matchesAt (fimPrefixTok ++ a ++ fimSuffixTok ++ b ++ fimMiddleTok) fimPrefixTok 0 ∧
    matchesAt (fimPrefixTok ++ a ++ fimSuffixTok ++ b ++ fimMiddleTok) fimSuffixTok
      (14 + a.length) ∧
    matchesAt (fimPrefixTok ++ a ++ fimSuffixTok ++ b ++ fimMiddleTok) fimMiddleTok
      (28 + a.length + b.length) := by
  have l1 : fimPrefixTok.length = 14 := by decide
  have l2 : fimSuffixTok.length = 14 := by decide
  have hm1 : matchesAt (fimPrefixTok ++ a ++ fimSuffixTok ++ b ++ fimMiddleTok)
      fimPrefixTok 0 := by
    have hassoc : fimPrefixTok ++ a ++ fimSuffixTok ++ b ++ fimMiddleTok
        = fimPrefixTok ++ (a ++ fimSuffixTok ++ b ++ fimMiddleTok) := by
      simp [List.append_assoc]
    rw [hassoc]
    exact matchesAt_self_append _ _
  have hm2 : matchesAt (fimPrefixTok ++ a ++ fimSuffixTok ++ b ++ fimMiddleTok)
      fimSuffixTok (14 + a.length) := by
    have hassoc : fimPrefixTok ++ a ++ fimSuffixTok ++ b ++ fimMiddleTok
        = (fimPrefixTok ++ a) ++ (fimSuffixTok ++ (b ++ fimMiddleTok)) := by
      simp [List.append_assoc]
    rw [hassoc]
    have h0 : matchesAt ((fimPrefixTok ++ a) ++ (fimSuffixTok ++ (b ++ fimMiddleTok)))
        fimSuffixTok ((fimPrefixTok ++ a).length + 0) :=
      matchesAt_append_right.mpr (matchesAt_self_append _ _)
    have hidx : (fimPrefixTok ++ a).length + 0 = 14 + a.length := by
      simp [l1]
    rwa [hidx] at h0
  have hm3 : matchesAt (fimPrefixTok ++ a ++ fimSuffixTok ++ b ++ fimMiddleTok)
      fimMiddleTok (28 + a.length + b.length) := by
    have h0 : matchesAt ((fimPrefixTok ++ a ++ fimSuffixTok ++ b) ++ fimMiddleTok)
        fimMiddleTok ((fimPrefixTok ++ a ++ fimSuffixTok ++ b).length + 0) :=
      matchesAt_append_right.mpr (by decide)
    have hidx : (fimPrefixTok ++ a ++ fimSuffixTok ++ b).length + 0
        = 28 + a.length + b.length := by
      simp [l1, l2]
      omega
    rwa [hidx] at h0
  have hA : ∀ pat, pat = fimPrefixTok ∨ pat = fimSuffixTok ∨ pat = fimMiddleTok →
      ∀ q, ¬ matchesAt a pat q := by
    rintro pat (h | h | h) <;> subst h
    · exact countOcc_eq_zero_iff.mp ha1
    · exact countOcc_eq_zero_iff.mp ha2
    · exact countOcc_eq_zero_iff.mp ha3
  have hB : ∀ pat, pat = fimPrefixTok ∨ pat = fimSuffixTok ∨ pat = fimMiddleTok →
      ∀ q, ¬ matchesAt b pat q := by
    rintro pat (h | h | h) <;> subst h
    · exact countOcc_eq_zero_iff.mp hb1
    · exact countOcc_eq_zero_iff.mp hb2
    · exact countOcc_eq_zero_iff.mp hb3
  refine ⟨?_, ?_, ?_, hm1, hm2, hm3⟩
  · refine countOcc_eq_one hm1 (by decide) ?_
    intro i hi
    rcases matchesAt_fim_prompt (Or.inl rfl) (hA _ (Or.inl rfl)) (hB _ (Or.inl rfl)) hi with
      ⟨_, h⟩ | ⟨h, _⟩ | ⟨h, _⟩
    · exact h
    · exact absurd h (by decide)
    · exact absurd h (by decide)
  · refine countOcc_eq_one hm2 (by decide) ?_
    intro i hi
    rcases matchesAt_fim_prompt (Or.inr (Or.inl rfl)) (hA _ (Or.inr (Or.inl rfl)))
        (hB _ (Or.inr (Or.inl rfl))) hi with ⟨h, _⟩ | ⟨_, h⟩ | ⟨h, _⟩
    · exact absurd h (by decide)
    · exact h
    · exact absurd h (by decide)
  · refine countOcc_eq_one hm3 (by decide) ?_
    intro i hi
    rcases matchesAt_fim_prompt (Or.inr (Or.inr rfl)) (hA _ (Or.inr (Or.inr rfl)))
        (hB _ (Or.inr (Or.inr rfl))) hi with ⟨h, _⟩ | ⟨h, _⟩ | ⟨_, h⟩
    · exact absurd h (by decide)
    · exact absurd h (by decide)
    · exact h

theorem joinLines_cons (x : Str) (xs : List Str) (h : xs ≠ []) :
    joinLines (x :: xs) = x ++ '\n' :: joinLines xs := by
  cases xs with
  | nil => exact absurd rfl h
  | cons y ys => rfl

theorem joinLines_decomp (lines : List Str) (l : Nat) (hl : l < lines.length) :
    joinLines lines
      = (if l = 0 then [] else joinLines (lines.take l) ++ ['\n'])
        ++ lines.getD l []
        ++ (if l + 1 < lines.length then '\n' :: joinLines (lines.drop (l + 1)) else []) := by
  induction lines generalizing l with
  | nil => simp at hl
  | cons x xs ih =>
    cases l with
    | zero =>
      cases xs with
      | nil => simp [joinLines]
      | cons y ys =>
        rw [joinLines_cons x (y :: ys) (by simp)]
        simp
    | succ k =>
      have hk : k < xs.length := by simpa using hl
      have hxs : xs ≠ [] := by
        intro h
        rw [h] at hk
        simp at hk
      rw [joinLines_cons x xs hxs, ih k hk]
      have htake : (x :: xs).take (k + 1) = x :: xs.take k := by simp
      by_cases hk0 : k = 0
      · subst hk0
        have h3 : (2 < xs.length + 1) ↔ (1 < xs.length) := by omega
        simp [joinLines, h3]
      · have htk : xs.take k ≠ [] := by
          intro h
          have h2 : (xs.take k).length = 0 := by rw [h]; rfl
          rw [List.length_take] at h2
          omega
        rw [htake, joinLines_cons x (xs.take k) htk]
        have h3 : (k + 2 < xs.length + 1) ↔ (k + 1 < xs.length) := by omega
        simp [List.append_assoc, h3, hk0]

theorem pyTakeRight_length_le {s : Str} {m : Nat} (hm : 1 ≤ m) :
    (pyTakeRight s m).length ≤ m := by
  unfold pyTakeRight
  have : ¬ m = 0 := by omega
  simp [this]
  omega

/-- C2: exactly one of the three strategies produces the payload: the
native two-field branch is taken iff `fim_enabled` is truthy,
`force_manual_fim` is false and `fim_mode` is `"auto"` or `"template"`;
the payload has a `suffix` field iff that branch is taken; otherwise a
truthy `fim_enabled` yields the manual-FIM prompt, and a falsy
`fim_enabled` yields the windowed instruction block plus a newline. -/
theorem c2_payload_strategy (e : Engine) (lines : List Str) (line character : Int)
    (filetype : Str) (force_manual_fim : Bool) :
    ((build_request_payload e lines line character filetype force_manual_fim).suffix.isSome
        = use_template_fim e force_manual_fim) ∧
    (use_template_fim e force_manual_fim = true ↔
      pyTruthy e.fim_enabled = true ∧ force_manual_fim = false ∧
        (e.fim_mode = PyVal.str "auto".toList ∨ e.fim_mode = PyVal.str "template".toList)) ∧
    (use_template_fim e force_manual_fim = true →
      (build_request_payload e lines line character filetype force_manual_fim).prompt
          = pyTakeRight (split_prefix_suffix lines line character).1 e.max_prefix_chars ∧
      (build_request_payload e lines line character filetype force_manual_fim).suffix
          = Option.some ((split_prefix_suffix lines line character).2.1.take
              e.max_suffix_chars)) ∧
    (use_template_fim e force_manual_fim = false → pyTruthy e.fim_enabled = true →
      (build_request_payload e lines line character filetype force_manual_fim).prompt
          = manual_fim_prompt e
              (pyTakeRight (split_prefix_suffix lines line character).1 e.max_prefix_chars)
              (split_prefix_suffix lines line character).2.1 ∧
      (build_request_payload e lines line character filetype force_manual_fim).suffix
          = Option.none) ∧
    (pyTruthy e.fim_enabled = false →
      (build_request_payload e lines line character filetype force_manual_fim).prompt
          = centered_prefix_block e lines line character filetype
              (split_prefix_suffix lines line character).2.2 ++ ['\n'] ∧
      (build_request_payload e lines line character filetype force_manual_fim).suffix
          = Option.none) := by
  refine ⟨?_, ?_, ?_, ?_, ?_⟩
  · by_cases h : use_template_fim e force_manual_fim
    · simp [build_request_payload, h]
    · simp only [Bool.not_eq_true] at h
      rw [h]
      by_cases h2 : pyTruthy e.fim_enabled
      · simp [build_request_payload, h, h2]
      · simp only [Bool.not_eq_true] at h2
        simp [build_request_payload, h, h2]
  · simp only [use_template_fim, Bool.and_eq_true, Bool.not_eq_true', Bool.or_eq_true,
      beq_iff_eq]
    tauto
  · intro h
    simp [build_request_payload, h]
  · intro h h2
    simp [build_request_payload, h, h2]
  · intro h
    have hu : use_template_fim e force_manual_fim = false := by
      unfold use_template_fim
      simp [h]
    simp [build_request_payload, hu, h]

theorem c2_payload_strategy_witness :
    use_template_fim engAuto false = true ∧
    (build_request_payload engAuto ["ab".toList] 0 0 [] false).prompt
        = pyTakeRight (split_prefix_suffix ["ab".toList] 0 0).1 engAuto.max_prefix_chars ∧
    (build_request_payload engAuto ["ab".toList] 0 0 [] false).suffix
        = Option.some ((split_prefix_suffix ["ab".toList] 0 0).2.1.take
            engAuto.max_suffix_chars) :=
  ⟨by decide, (c2_payload_strategy engAuto ["ab".toList] 0 0 [] false).2.2.1 (by decide)⟩

/-- C4 as stated is false: with `max_prefix_chars = 0` the native branch
slices `prefix[-0:]`, which is the whole prefix, so the prompt exceeds the
configured bound. -/
theorem c4_counterexample :
    use_template_fim engZeroMax false = true ∧
    engZeroMax.max_prefix_chars = 0 ∧
    ¬ ((build_request_payload engZeroMax ["ab".toList] 0 2 [] false).prompt.length
        ≤ engZeroMax.max_prefix_chars) := by
  refine ⟨by decide, by decide, ?_⟩
  decide

/-- C4 (amended): for every configuration with `max_prefix_chars ≥ 1`, a
native template-FIM payload has a prompt of at most `max_prefix_chars`
characters and a suffix of at most `max_suffix_chars` characters. -/
theorem c4_native_fim_bounds (e : Engine) (lines : List Str) (line character : Int)
    (filetype : Str) (force_manual_fim : Bool)
    (hmax : 1 ≤ e.max_prefix_chars)
    (hnative : use_template_fim e force_manual_fim = true) :
    (build_request_payload e lines line character filetype force_manual_fim).prompt.length
        ≤ e.max_prefix_chars ∧
    ∀ s, (build_request_payload e lines line character filetype force_manual_fim).suffix
        = Option.some s → s.length ≤ e.max_suffix_chars := by
  constructor
  · simp [build_request_payload, hnative]
    exact pyTakeRight_length_le hmax
  · intro s hs
    simp [build_request_payload, hnative] at hs
    rw [← hs]
    simp [List.length_take]

theorem c4_native_fim_bounds_witness :
    1 ≤ engAuto.max_prefix_chars ∧ use_template_fim engAuto false = true ∧
    (build_request_payload engAuto ["ab".toList] 0 1 [] false).prompt.length
        ≤ engAuto.max_prefix_chars :=
  ⟨by decide, by decide,
    (c4_native_fim_bounds engAuto ["ab".toList] 0 1 [] false (by decide) (by decide)).1⟩

theorem boundedLineOf_cast (lines : List Str) (line : Int) :
    boundedLineOf lines ((boundedLineOf lines line : Nat) : Int)
      = boundedLineOf lines line := by
  unfold boundedLineOf
  by_cases h : lines.isEmpty
  · simp [h]
  · simp [h]
    have hpos : 0 < lines.length :=
      List.length_pos.mpr (by simpa [List.isEmpty_iff] using h)
    omega

theorem currentLineOf_cast (lines : List Str) (line : Int) :
    currentLineOf lines ((boundedLineOf lines line : Nat) : Int)
      = currentLineOf lines line := by
  unfold currentLineOf
  rw [boundedLineOf_cast]

theorem boundedCharOf_cast (lines : List Str) (line character : Int) :
    boundedCharOf lines ((boundedLineOf lines line : Nat) : Int)
        ((boundedCharOf lines line character : Nat) : Int)
      = boundedCharOf lines line character := by
  unfold boundedCharOf
  rw [currentLineOf_cast]
  omega

/-- C7: the cursor splitter is total: for arbitrary (also negative or
out-of-range) `line`/`character` it computes with the clamped line (in
`[0, len-1]`, or 0 with current line `""` for an empty document) and the
clamped character (in `[0, len(current_line)]`); re-running it on the
clamped cursor gives the identical result. -/
theorem c7_splitter_clamps (lines : List Str) (line character : Int) :
    boundedLineOf lines line < max lines.length 1 ∧
    boundedCharOf lines line character ≤ (currentLineOf lines line).length ∧
    (lines.isEmpty = true → currentLineOf lines line = []) ∧
    split_prefix_suffix lines line character
      = split_prefix_suffix lines ((boundedLineOf lines line : Nat) : Int)
          ((boundedCharOf lines line character : Nat) : Int) := by
  refine ⟨?_, ?_, ?_, ?_⟩
  · unfold boundedLineOf
    by_cases h : lines.isEmpty
    · simp [h]
    · simp [h]
      have hpos : 0 < lines.length :=
        List.length_pos.mpr (by simpa [List.isEmpty_iff] using h)
      omega
  · unfold boundedCharOf
    omega
  · intro h
    unfold currentLineOf
    rw [List.isEmpty_iff] at h
    simp [h]
  · unfold split_prefix_suffix
    rw [boundedLineOf_cast, currentLineOf_cast, boundedCharOf_cast]

theorem c7_splitter_clamps_witness :
    (([] : List Str).isEmpty = true) ∧ currentLineOf [] (-5) = [] :=
  ⟨by decide, (c7_splitter_clamps [] (-5) 99).2.2.1 (by decide)⟩

/-- C8 as stated is false: a dict chunk without a `response` key passes
through unchanged, so the normalized mapping need not contain a textual
`response` field. -/
theorem c8_counterexample :
    normalize_chunk (Chunk.dict []) = [] ∧
    (normalize_chunk (Chunk.dict [])).lookup "response".toList = Option.none := by
  exact ⟨rfl, rfl⟩

/-- C8 (amended): normalization is the case analysis the claim lists —
mappings pass through unchanged, chunks with a structured-conversion
capability are converted to their mapping, and any other chunk is wrapped
as `{response: str(chunk)}` — and the result is guaranteed to contain a
textual `response` field in the wrapped case (a pass-through or converted
mapping carries only its own keys). -/
theorem c8_normalize_cases (c : Chunk) :
    (∀ m, c = Chunk.dict m → normalize_chunk c = m) ∧
    (∀ m, c = Chunk.modelDump m → normalize_chunk c = m) ∧
    (∀ m, c = Chunk.dictMethod m → normalize_chunk c = m) ∧
    (∀ s, c = Chunk.other s →
      (normalize_chunk c).lookup "response".toList = Option.some (PyVal.str s)) := by
  refine ⟨?_, ?_, ?_, ?_⟩
  · intro m hm
    subst hm
    rfl
  · intro m hm
    subst hm
    rfl
  · intro m hm
    subst hm
    rfl
  · intro s hs
    subst hs
    simp [normalize_chunk]

theorem c8_normalize_cases_witness :
    (normalize_chunk (Chunk.other "tok".toList)).lookup "response".toList
      = Option.some (PyVal.str "tok".toList) :=
  (c8_normalize_cases (Chunk.other "tok".toList)).2.2.2 "tok".toList rfl

theorem lookup_eraseKey_self (k : Str) (d : PyDict) :
    (eraseKey k d).lookup k = Option.none := by
  rw [List.lookup_eq_none_iff]
  intro p hp
  unfold eraseKey at hp
  rw [List.mem_filter] at hp
  have h2 := hp.2
  simp at h2
  simp [bne_iff_ne]
  exact fun h => h2 h.symm

theorem lookup_eraseKey_preserve {d : PyDict} {k : Str} (k' : Str)
    (h : d.lookup k = Option.none) : (eraseKey k' d).lookup k = Option.none := by
  rw [List.lookup_eq_none_iff] at h ⊢
  intro p hp
  exact h p (List.mem_of_mem_filter hp)

theorem popOr_lookup_self (d : PyDict) (k : Str) (dv : PyVal) :
    ((popOr d k dv).2).lookup k = Option.none := by
  unfold popOr
  cases h : d.lookup k with
  | none => simp only [h]
  | some v =>
    simp only [h]
    exact lookup_eraseKey_self k d

theorem popOr_lookup_preserve {d : PyDict} {k : Str} (k' : Str) (dv : PyVal)
    (h : d.lookup k = Option.none) : ((popOr d k' dv).2).lookup k = Option.none := by
  unfold popOr
  cases h2 : d.lookup k' with
  | none =>
    simp only [h2]
    exact h
  | some v =>
    simp only [h2]
    exact lookup_eraseKey_preserve k' h

theorem engineInit_options (model : Str) (opts : PyDict) (envDebug : Bool)
    (envLog : Option Str) :
    (engineInit model opts envDebug envLog).options
      = (popOr (popOr (popOr (popOr (popOr (popOr (popOr (popOr opts
          "fim_enabled".toList (PyVal.bool true)).2
          "fim_mode".toList (PyVal.str "auto".toList)).2
          "context_lines_before".toList (PyVal.int 80)).2
          "context_lines_after".toList (PyVal.int 40)).2
          "max_prefix_chars".toList (PyVal.int 8000)).2
          "max_suffix_chars".toList (PyVal.int 3000)).2
          "debug".toList (PyVal.bool false)).2
          "debug_log_file".toList PyVal.none).2 := rfl

/-- C10: the pass-through options mapping left by `__init__` binds none of
the recognized configuration keys, and every payload built by the engine
carries exactly this options mapping in its `options` field, whichever
strategy produced it. -/
theorem c10_options_invariant (model : Str) (opts : PyDict) (envDebug : Bool)
    (envLog : Option Str) (k : Str) (hk : k ∈ recognizedKeys) :
    (engineInit model opts envDebug envLog).options.lookup k = Option.none ∧
    ∀ lines line character filetype force_manual_fim,
      (build_request_payload (engineInit model opts envDebug envLog) lines line character
          filetype force_manual_fim).options
        = (engineInit model opts envDebug envLog).options := by
  constructor
  · rw [engineInit_options]
    simp only [recognizedKeys, List.mem_cons, List.not_mem_nil, or_false] at hk
    rcases hk with rfl | rfl | rfl | rfl | rfl | rfl | rfl | rfl
    · exact popOr_lookup_preserve _ _ (popOr_lookup_preserve _ _ (popOr_lookup_preserve _ _
        (popOr_lookup_preserve _ _ (popOr_lookup_preserve _ _ (popOr_lookup_preserve _ _
          (popOr_lookup_preserve _ _ (popOr_lookup_self _ _ _)))))))
    · exact popOr_lookup_preserve _ _ (popOr_lookup_preserve _ _ (popOr_lookup_preserve _ _
        (popOr_lookup_preserve _ _ (popOr_lookup_preserve _ _ (popOr_lookup_preserve _ _
          (popOr_lookup_self _ _ _))))))
    · exact popOr_lookup_preserve _ _ (popOr_lookup_preserve _ _ (popOr_lookup_preserve _ _
        (popOr_lookup_preserve _ _ (popOr_lookup_preserve _ _ (popOr_lookup_self _ _ _)))))
    · exact popOr_lookup_preserve _ _ (popOr_lookup_preserve _ _ (popOr_lookup_preserve _ _
        (popOr_lookup_preserve _ _ (popOr_lookup_self _ _ _))))
    · exact popOr_lookup_preserve _ _ (popOr_lookup_preserve _ _ (popOr_lookup_preserve _ _
        (popOr_lookup_self _ _ _)))
    · exact popOr_lookup_preserve _ _ (popOr_lookup_preserve _ _ (popOr_lookup_self _ _ _))
    · exact popOr_lookup_preserve _ _ (popOr_lookup_self _ _ _)
    · exact popOr_lookup_self _ _ _
  · intro lines line character filetype fmf
    by_cases h : use_template_fim (engineInit model opts envDebug envLog) fmf
    · simp [build_request_payload, h]
    · simp only [Bool.not_eq_true] at h
      by_cases h2 : pyTruthy (engineInit model opts envDebug envLog).fim_enabled
      · simp [build_request_payload, h, h2]
      · simp only [Bool.not_eq_true] at h2
        simp [build_request_payload, h, h2]

theorem c10_options_invariant_witness :
    ("debug".toList ∈ recognizedKeys) ∧
    (engineInit "m".toList
        [("temperature".toList, PyVal.int 1), ("debug".toList, PyVal.bool true)]
        false Option.none).options.lookup "debug".toList = Option.none :=
  ⟨by decide,
    (c10_options_invariant "m".toList
      [("temperature".toList, PyVal.int 1), ("debug".toList, PyVal.bool true)]
      false Option.none "debug".toList (by decide)).1⟩

/-- C3: `complete` retries exactly once: a successful first submission is
returned as-is; a `TypeError` whose message mentions `suffix` causes the
payload to be rebuilt once with `force_manual_fim=true` and the retried
submission's outcome (success or error) to be returned unchanged; a
`TypeError` not mentioning `suffix`, and any non-`TypeError`, propagate
without any retry. -/
theorem c3_retry_once {σ : Type} (e : Engine) (gen : Payload → Except PyErr σ)
    (lines : List Str) (line character : Int) (filetype : Str) :
    (∀ s, gen (build_request_payload e lines line character filetype false) = Except.ok s →
      complete e gen lines line character filetype = Except.ok s) ∧
    (∀ msg, gen (build_request_payload e lines line character filetype false)
        = Except.error (PyErr.typeError msg) →
      containsSub msg "suffix".toList = true →
      complete e gen lines line character filetype
        = gen (build_request_payload e lines line character filetype true)) ∧
    (∀ msg, gen (build_request_payload e lines line character filetype false)
        = Except.error (PyErr.typeError msg) →
      containsSub msg "suffix".toList = false →
      complete e gen lines line character filetype
        = Except.error (PyErr.typeError msg)) ∧
    (∀ msg, gen (build_request_payload e lines line character filetype false)
        = Except.error (PyErr.other msg) →
      complete e gen lines line character filetype
        = Except.error (PyErr.other msg)) := by
  refine ⟨?_, ?_, ?_, ?_⟩
  · intro s hs
    unfold complete
    simp only [hs]
  · intro msg hm hc
    unfold complete
    simp only [hm, hc, if_true]
  · intro msg hm hc
    unfold complete
    simp only [hm, hc]
    simp
  · intro msg hm
    unfold complete
    simp only [hm]

theorem c3_retry_once_witness :
    (genSuffixError (build_request_payload engAuto ["ab".toList] 0 1 [] false)
        = Except.error (PyErr.typeError
            "generate() got an unexpected keyword argument: suffix".toList)) ∧
    (containsSub "generate() got an unexpected keyword argument: suffix".toList
        "suffix".toList = true) ∧
    complete engAuto genSuffixError ["ab".toList] 0 1 []
      = genSuffixError (build_request_payload engAuto ["ab".toList] 0 1 [] true) :=
  ⟨by rfl, by decide,
    (c3_retry_once engAuto genSuffixError ["ab".toList] 0 1 []).2.1
      "generate() got an unexpected keyword argument: suffix".toList
      (by rfl) (by decide)⟩

/-- C1 as stated is false: with document `["", "x"]` and cursor `(1, 0)`
the joined-prefix truthiness test in `_split_prefix_suffix` mistakes the
cursor line for the first line (the joined preceding lines are empty), so
the reconstruction drops the leading newline. -/
theorem c1_counterexample :
    (split_prefix_suffix ["".toList, "x".toList] 1 0).1
        ++ (split_prefix_suffix ["".toList, "x".toList] 1 0).2.1 = "x".toList ∧
    joinLines ["".toList, "x".toList] = "\nx".toList ∧
    ¬ ((split_prefix_suffix ["".toList, "x".toList] 1 0).1
        ++ (split_prefix_suffix ["".toList, "x".toList] 1 0).2.1
      = joinLines ["".toList, "x".toList]) := by
  refine ⟨by decide, by decide, by decide⟩

/-- C1 (amended): prefix and suffix reconstruct the document exactly for
every cursor whose clamped line is 0 or whose preceding lines do not join
to the empty string (i.e. except when the clamped line is positive and
`"\n".join(lines[:line])` is empty, which happens exactly for line 1 under
an empty first line). -/
theorem c1_reconstruction (lines : List Str) (line character : Int)
    (h : boundedLineOf lines line = 0 ∨
      joinLines (lines.take (boundedLineOf lines line)) ≠ []) :
    (split_prefix_suffix lines line character).1
      ++ (split_prefix_suffix lines line character).2.1 = joinLines lines := by
  by_cases hemp : lines.isEmpty
  · rw [List.isEmpty_iff] at hemp
    subst hemp
    simp [split_prefix_suffix, currentLineOf, boundedLineOf, joinLines]
  · have hne : lines ≠ [] := by simpa [List.isEmpty_iff] using hemp
    have hpos : 0 < lines.length := List.length_pos.mpr hne
    simp only [split_prefix_suffix]
    set bl := boundedLineOf lines line with hbl
    have hlt : bl < lines.length := by
      rw [hbl]
      unfold boundedLineOf
      simp [hemp]
      omega
    have hdec := joinLines_decomp lines bl hlt
    set L := currentLineOf lines line with hL
    have hgetd : lines.getD bl [] = L := rfl
    rw [hgetd] at hdec
    set bc := boundedCharOf lines line character with hbc
    have hLR : L.take bc ++ L.drop bc = L := List.take_append_drop bc L
    rcases h with h0 | hpfx0
    · rw [h0]
      rw [h0] at hdec
      simp only [List.take_zero] at hdec ⊢
      simp only [joinLines] at hdec ⊢
      simp only [List.isEmpty_nil, if_true, List.nil_append] at hdec ⊢
      simp at hdec
      rw [hdec]
      by_cases hn : 0 + 1 < lines.length
      · simp only [hn, if_true]
        rw [← List.append_assoc, hLR]
        simp [List.drop_one]
      · simp only [hn, if_false, List.append_nil]
        exact hLR
    · have hbl0 : bl ≠ 0 := by
        intro h0
        rw [h0] at hpfx0
        simp [joinLines] at hpfx0
      have hpe : (joinLines (lines.take bl)).isEmpty = false := by
        cases hJ : joinLines (lines.take bl) with
        | nil => exact absurd hJ hpfx0
        | cons c t => rfl
      simp only [hpe, Bool.false_eq_true, if_false]
      rw [if_neg hbl0] at hdec
      rw [hdec]
      by_cases hn : bl + 1 < lines.length
      · simp only [hn, if_true]
        simp [List.append_assoc]
        rw [← List.append_assoc, hLR]
      · simp only [hn, if_false]
        simp [List.append_assoc]

theorem c1_reconstruction_witness :
    (boundedLineOf ["ab".toList, "cd".toList] 1 = 0 ∨
      joinLines ((["ab".toList, "cd".toList]).take
        (boundedLineOf ["ab".toList, "cd".toList] 1)) ≠ []) ∧
    (split_prefix_suffix ["ab".toList, "cd".toList] 1 1).1
        ++ (split_prefix_suffix ["ab".toList, "cd".toList] 1 1).2.1
      = joinLines ["ab".toList, "cd".toList] :=
  ⟨by decide, c1_reconstruction ["ab".toList, "cd".toList] 1 1 (by decide)⟩

theorem isInfix_app_left (x : Str) {p y : Str} (h : p <:+: y) : p <:+: x ++ y := by
  obtain ⟨s, t, rfl⟩ := h
  exact ⟨x ++ s, t, by simp [List.append_assoc]⟩

theorem isInfix_app_right (t : Str) {p q : Str} (h : p <:+: q) : p <:+: q ++ t := by
  obtain ⟨s, u, rfl⟩ := h
  exact ⟨s, u ++ t, by simp [List.append_assoc]⟩

theorem suffix_snoc_newline {X m t : Str} (hm : m ++ ['\n'] = t) :
    t <:+ (X ++ m) ++ ['\n'] := by
  rw [List.append_assoc, hm]
  exact List.suffix_append _ _

/-- C6 as stated is false: the windowed block itself ends with
`"[INSERT_AT_CURSOR]\n"` and `build_request_payload` appends one more
`"\n"`, so the no-FIM prompt ends with two newlines, not exactly one. -/
theorem c6_counterexample :
    pyTruthy engNoFim.fim_enabled = false ∧
    ((build_request_payload engNoFim ["ab".toList] 0 1 [] false).prompt).getLast?
        = some '\n' ∧
    ((build_request_payload engNoFim ["ab".toList] 0 1 [] false).prompt).dropLast.getLast?
        = some '\n' := by
  refine ⟨by decide, by decide, by decide⟩

/-- C6 (amended): with FIM disabled the prompt contains the literal section
markers and ends with the literal text `"[INSERT_AT_CURSOR]\n\n"` — the
final marker followed by exactly two trailing newlines (the block's own
and the one the builder appends), with no other content after it. -/
theorem c6_windowed_markers (e : Engine) (lines : List Str) (line character : Int)
    (filetype : Str) (force_manual_fim : Bool)
    (h : pyTruthy e.fim_enabled = false) :
    ("[PREFIX_BEFORE_CURSOR]".toList <:+:
      (build_request_payload e lines line character filetype force_manual_fim).prompt) ∧
    ("[CURRENT_LINE_PREFIX]".toList <:+:
      (build_request_payload e lines line character filetype force_manual_fim).prompt) ∧
    ("[CURRENT_LINE_SUFFIX]".toList <:+:
      (build_request_payload e lines line character filetype force_manual_fim).prompt) ∧
    ("[INSERT_AT_CURSOR]".toList <:+:
      (build_request_payload e lines line character filetype force_manual_fim).prompt) ∧
    ("[INSERT_AT_CURSOR]\n\n".toList <:+
      (build_request_payload e lines line character filetype force_manual_fim).prompt) := by
  have hu : use_template_fim e force_manual_fim = false := by
    unfold use_template_fim
    simp [h]
  have hp : (build_request_payload e lines line character filetype force_manual_fim).prompt
      = centered_prefix_block e lines line character filetype
          (split_prefix_suffix lines line character).2.2 ++ ['\n'] := by
    simp [build_request_payload, hu, h]
  rw [hp]
  simp only [centered_prefix_block]
  refine ⟨?_, ?_, ?_, ?_, ?_⟩
  · exact isInfix_app_right _ (isInfix_app_right _ (isInfix_app_right _ (isInfix_app_right _
      (isInfix_app_right _ (isInfix_app_right _ (isInfix_app_right _ (isInfix_app_right _
      (isInfix_app_right _ (isInfix_app_right _
      (isInfix_app_left _ ⟨[], ['\n'], by decide⟩))))))))))
  · exact isInfix_app_right _ (isInfix_app_right _ (isInfix_app_right _ (isInfix_app_right _
      (isInfix_app_right _ (isInfix_app_right _ (isInfix_app_right _
      (isInfix_app_left _ ⟨[], ['\n'], by decide⟩)))))))
  · exact isInfix_app_right _ (isInfix_app_right _ (isInfix_app_right _ (isInfix_app_right _
      (isInfix_app_left _ ⟨[], ['\n'], by decide⟩))))
  · exact isInfix_app_right _ (isInfix_app_left _ ⟨[], ['\n'], by decide⟩)
  · exact suffix_snoc_newline (by decide)

theorem c6_windowed_markers_witness :
    pyTruthy engNoFim.fim_enabled = false ∧
    ("[INSERT_AT_CURSOR]\n\n".toList <:+
      (build_request_payload engNoFim ["ab".toList] 0 1 [] false).prompt) :=
  ⟨by decide,
    (c6_windowed_markers engNoFim ["ab".toList] 0 1 [] false (by decide)).2.2.2.2⟩

theorem centeredBoundedLine_lt (lines : List Str) (line : Int) :
    centeredBoundedLine lines line < (linesOrBlank lines).length := by
  have hpos : 0 < (linesOrBlank lines).length := by
    unfold linesOrBlank
    by_cases h : lines.isEmpty
    · simp [h]
    · simp [h]
      exact List.length_pos.mpr (by simpa [List.isEmpty_iff] using h)
  unfold centeredBoundedLine
  omega

/-- C9: the context windower's output does not depend on any line strictly
after the (re-clamped) cursor line, nor on `context_lines_after`: two
documents agreeing up to and including their clamped cursor lines produce
identical instruction blocks even when `context_lines_after` is changed
arbitrarily, and at most `context_lines_before` before-context lines are
used. -/
theorem c9_windower_ignores_after (e : Engine) (lines₁ lines₂ : List Str)
    (line character : Int) (filetype indent : Str) (n : Nat)
    (hagree : (linesOrBlank lines₁).take (centeredBoundedLine lines₁ line + 1)
      = (linesOrBlank lines₂).take (centeredBoundedLine lines₂ line + 1)) :
    centered_prefix_block { e with context_lines_after := n } lines₁ line character
        filetype indent
      = centered_prefix_block e lines₂ line character filetype indent ∧
    (centeredBeforeLines e lines₁ line).length ≤ e.context_lines_before := by
  have hbl₁ := centeredBoundedLine_lt lines₁ line
  have hbl₂ := centeredBoundedLine_lt lines₂ line
  have hble : centeredBoundedLine lines₁ line = centeredBoundedLine lines₂ line := by
    have h1 := congrArg List.length hagree
    simp only [List.length_take] at h1
    omega
  have hcur : (linesOrBlank lines₁).getD (centeredBoundedLine lines₁ line) []
      = (linesOrBlank lines₂).getD (centeredBoundedLine lines₂ line) [] := by
    have e1 : (linesOrBlank lines₁).getD (centeredBoundedLine lines₁ line) []
        = ((linesOrBlank lines₁).take (centeredBoundedLine lines₁ line + 1)).getD
            (centeredBoundedLine lines₁ line) [] := by
      rw [List.getD_eq_getElem?_getD, List.getD_eq_getElem?_getD,
        List.getElem?_take_of_lt (by omega)]
    have e2 : (linesOrBlank lines₂).getD (centeredBoundedLine lines₂ line) []
        = ((linesOrBlank lines₂).take (centeredBoundedLine lines₂ line + 1)).getD
            (centeredBoundedLine lines₂ line) [] := by
      rw [List.getD_eq_getElem?_getD, List.getD_eq_getElem?_getD,
        List.getElem?_take_of_lt (by omega)]
    rw [e1, e2, hagree, hble]
  have htk : (linesOrBlank lines₁).take (centeredBoundedLine lines₁ line)
      = (linesOrBlank lines₂).take (centeredBoundedLine lines₂ line) := by
    have e1 : (linesOrBlank lines₁).take (centeredBoundedLine lines₁ line)
        = ((linesOrBlank lines₁).take (centeredBoundedLine lines₁ line + 1)).take
            (centeredBoundedLine lines₁ line) := by
      rw [List.take_take]
      congr 1
      omega
    have e2 : (linesOrBlank lines₂).take (centeredBoundedLine lines₂ line)
        = ((linesOrBlank lines₂).take (centeredBoundedLine lines₂ line + 1)).take
            (centeredBoundedLine lines₂ line) := by
      rw [List.take_take]
      congr 1
      omega
    rw [e1, e2, hagree, hble]
  have hbefore : centeredBeforeLines { e with context_lines_after := n } lines₁ line
      = centeredBeforeLines e lines₂ line := by
    unfold centeredBeforeLines
    rw [htk, hble]
  constructor
  · simp only [centered_prefix_block]
    rw [hbefore, hcur]
  · unfold centeredBeforeLines
    simp only [List.length_drop, List.length_take]
    omega

theorem c9_windower_ignores_after_witness :
    ((linesOrBlank ["a".toList, "b".toList]).take
        (centeredBoundedLine ["a".toList, "b".toList] 1 + 1)
      = (linesOrBlank ["a".toList, "b".toList, "zzz".toList]).take
        (centeredBoundedLine ["a".toList, "b".toList, "zzz".toList] 1 + 1)) ∧
    centered_prefix_block { engNoFim with context_lines_after := 999 }
        ["a".toList, "b".toList] 1 0 [] []
      = centered_prefix_block engNoFim ["a".toList, "b".toList, "zzz".toList] 1 0 [] [] :=
  ⟨by decide,
    (c9_windower_ignores_after engNoFim ["a".toList, "b".toList]
      ["a".toList, "b".toList, "zzz".toList] 1 0 [] [] 999 (by decide)).1⟩

theorem countOcc_zero_take {s pat : Str} (m : Nat) (hpat : pat ≠ [])
    (h : countOcc s pat = 0) : countOcc (s.take m) pat = 0 := by
  rw [countOcc_eq_zero_iff] at h ⊢
  intro i hm
  exact h i (matchesAt_take hm hpat)

theorem countOcc_zero_pyTakeRight {s pat : Str} (m : Nat)
    (h : countOcc s pat = 0) : countOcc (pyTakeRight s m) pat = 0 := by
  rw [countOcc_eq_zero_iff] at h ⊢
  intro i hm
  unfold pyTakeRight at hm
  by_cases h0 : m = 0
  · rw [if_pos h0] at hm
    exact h i hm
  · rw [if_neg h0] at hm
    exact h _ (matchesAt_drop hm)

/-- C5 as stated is false: a document that itself contains a sentinel
token makes the manual-FIM prompt contain that token more than once. -/
theorem c5_counterexample :
    pyTruthy engManual.fim_enabled = true ∧
    use_template_fim engManual false = false ∧
    countOcc (build_request_payload engManual ["<|fim_prefix|>".toList] 0 0 [] false).prompt
        fimPrefixTok = 2 := by
  refine ⟨by decide, by decide, by decide⟩

/-- C5 (amended): the manual-FIM encoder returns exactly the prefix
sentinel, the prefix, the suffix sentinel, the suffix truncated to its
first `max_suffix_chars` characters, and the middle sentinel; and for every
document and cursor whose split prefix and suffix contain no occurrence of
any sentinel token, the manual-FIM prompt built by the engine contains each
of the three sentinel tokens exactly once, at strictly increasing
(prefix/suffix/middle ordered) positions. -/
theorem c5_manual_fim_sentinels (e : Engine) (lines : List Str) (line character : Int)
    (filetype : Str) (force_manual_fim : Bool)
    (hfim : pyTruthy e.fim_enabled = true)
    (hman : use_template_fim e force_manual_fim = false)
    (hp1 : countOcc (split_prefix_suffix lines line character).1 fimPrefixTok = 0)
    (hp2 : countOcc (split_prefix_suffix lines line character).1 fimSuffixTok = 0)
    (hp3 : countOcc (split_prefix_suffix lines line character).1 fimMiddleTok = 0)
    (hs1 : countOcc (split_prefix_suffix lines line character).2.1 fimPrefixTok = 0)
    (hs2 : countOcc (split_prefix_suffix lines line character).2.1 fimSuffixTok = 0)
    (hs3 : countOcc (split_prefix_suffix lines line character).2.1 fimMiddleTok = 0) :
    (∀ p s, manual_fim_prompt e p s
        = fimPrefixTok ++ p ++ fimSuffixTok ++ s.take e.max_suffix_chars ++ fimMiddleTok) ∧
    countOcc (build_request_payload e lines line character filetype
        force_manual_fim).prompt fimPrefixTok = 1 ∧
    countOcc (build_request_payload e lines line character filetype
        force_manual_fim).prompt fimSuffixTok = 1 ∧
    countOcc (build_request_payload e lines line character filetype
        force_manual_fim).prompt fimMiddleTok = 1 ∧
    matchesAt (build_request_payload e lines line character filetype
        force_manual_fim).prompt fimPrefixTok 0 ∧
    matchesAt (build_request_payload e lines line character filetype
        force_manual_fim).prompt fimSuffixTok
      (14 + (pyTakeRight (split_prefix_suffix lines line character).1
        e.max_prefix_chars).length) ∧
    matchesAt (build_request_payload e lines line character filetype
        force_manual_fim).prompt fimMiddleTok
      (28 + (pyTakeRight (split_prefix_suffix lines line character).1
          e.max_prefix_chars).length
        + ((split_prefix_suffix lines line character).2.1.take
            e.max_suffix_chars).length) := by
  have hprompt : (build_request_payload e lines line character filetype
      force_manual_fim).prompt
      = fimPrefixTok
        ++ pyTakeRight (split_prefix_suffix lines line character).1 e.max_prefix_chars
        ++ fimSuffixTok
        ++ (split_prefix_suffix lines line character).2.1.take e.max_suffix_chars
        ++ fimMiddleTok := by
    simp [build_request_payload, hman, hfim, manual_fim_prompt]
  have htok := fim_prompt_tokens_once
    (pyTakeRight (split_prefix_suffix lines line character).1 e.max_prefix_chars)
    ((split_prefix_suffix lines line character).2.1.take e.max_suffix_chars)
    (countOcc_zero_pyTakeRight _ hp1) (countOcc_zero_pyTakeRight _ hp2)
    (countOcc_zero_pyTakeRight _ hp3)
    (countOcc_zero_take _ (by decide) hs1) (countOcc_zero_take _ (by decide) hs2)
    (countOcc_zero_take _ (by decide) hs3)
  rw [hprompt]
  exact ⟨fun p s => rfl, htok.1, htok.2.1, htok.2.2.1, htok.2.2.2.1, htok.2.2.2.2.1,
    htok.2.2.2.2.2⟩

theorem c5_manual_fim_sentinels_witness :
    pyTruthy engManual.fim_enabled = true ∧
    use_template_fim engManual false = false ∧
    countOcc (split_prefix_suffix ["ab".toList] 0 1).1 fimPrefixTok = 0 ∧
    countOcc (build_request_payload engManual ["ab".toList] 0 1 [] false).prompt
        fimPrefixTok = 1 :=
  ⟨by decide, by decide, by decide,
    (c5_manual_fim_sentinels engManual ["ab".toList] 0 1 [] false (by decide) (by decide)
      (by decide) (by decide) (by decide) (by decide) (by decide) (by decide)).2.1⟩
